import Mathlib

/-!
# NeuroPlanner core: shallow embedding and verification

This file embeds the task/history state model, the persistence layer and the
ordering engine of `script.js` (an energy-based task planner) into Lean, and
proves or refutes the specified properties of those operations.

Conventions of the embedding:
* JS numbers that hold integers are modelled as `Int`; `null`/`undefined`
  values as `Option`.
* The global mutable `appState` plus the browser's `localStorage` are threaded
  explicitly as a `World` value; every operation takes and returns a `World`.
* `Date.now()` / `new Date().toISOString()` are modelled by an explicit
  `Clock` argument carrying the millisecond count and its ISO rendering.
* `JSON.stringify`/`JSON.parse` are modelled at the JSON-value level: a
  serialized text is identified with its parse tree when it is valid JSON
  (`StoredText.jsonText`), and `StoredText.notJson` stands for a stored string
  that is not syntactically valid JSON, on which `JSON.parse` throws.
-/

namespace NeuroPlanner

/-- The clock at the moment an operation runs: `ms` is `Date.now()` and
`iso` is `new Date().toISOString()` for the same instant. -/
structure Clock where
  ms : Nat
  iso : String
deriving Repr, DecidableEq

/-- An active task, as built by `addTask` (script.js lines 50-57). -/
structure Task where
  id : String
  name : String
  category : String
  energy : Int
  priority : Option Int
  createdAt : String
deriving Repr, DecidableEq

/-- A completed task in `history`: all `Task` fields plus `completedAt`
(script.js lines 99-102). -/
structure HistoryEntry where
  id : String
  name : String
  category : String
  energy : Int
  priority : Option Int
  createdAt : String
  completedAt : String
deriving Repr, DecidableEq

/-- The global `appState` object (script.js lines 5-10). -/
structure AppState where
  tasks : List Task
  history : List HistoryEntry
  currentEnergy : Option Int
  dailyRating : Option Int
deriving Repr, DecidableEq

/-- The initial value of `appState` (script.js lines 5-10). -/
def defaultAppState : AppState :=
  { tasks := [], history := [], currentEnergy := none, dailyRating := none }

/-- The fixed category enumeration, read off the keys of the category-emoji
map (script.js lines 167-173). -/
def fixedCategories : List String :=
  ["cooking", "cleaning", "gym", "paperwork", "other"]

/-- JSON values, the parse trees produced by the platform's `JSON.parse`.
Numbers are restricted to the integers this application stores. -/
inductive Json where
  | null : Json
  | num : Int → Json
  | str : String → Json
  | arr : List Json → Json
  | obj : List (String × Json) → Json

/-- A string held in `localStorage` under the `neuroPlannerData` key,
identified up to JSON syntax: a valid JSON text is represented by its parse
tree, and `notJson` represents any text that is not valid JSON. -/
inductive StoredText where
  | jsonText : Json → StoredText
  | notJson : StoredText

/-- Model of the platform's `JSON.parse`: returns the parse tree of a valid
JSON text and throws a `SyntaxError` on anything else. -/
def jsonParse : StoredText → Except String Json
  | .jsonText j => .ok j
  | .notJson => .error "SyntaxError: unexpected token in JSON"

/-- Model of the platform's `JSON.stringify`: the serialized text of a JSON
value, which is in particular valid JSON. -/
def jsonStringify (j : Json) : StoredText :=
  .jsonText j

/-- The `localStorage` slot for the `neuroPlannerData` key. `writes` counts
the `setItem` calls made so far, so that theorems can state that an operation
performs no persistence write. -/
structure Storage where
  data : Option StoredText
  writes : Nat

/-- The whole mutable world of the script: the global `appState` and the
backing `localStorage`. -/
structure World where
  state : AppState
  storage : Storage

/-- The world at first-ever startup: default state, empty storage. -/
def initialWorld : World :=
  { state := defaultAppState, storage := { data := none, writes := 0 } }

/-! ## Serialization of the state (the shape `JSON.stringify` produces on
`appState`, field order as the objects are built in script.js) -/

/-- How a `priority` value (integer or `null`) appears in JSON. -/
def encodeOptInt : Option Int → Json
  | none => .null
  | some n => .num n

/-- The JSON object for one task, fields in the order `addTask` creates them
(script.js lines 50-57). -/
def encodeTask (t : Task) : Json :=
  .obj [("id", .str t.id), ("name", .str t.name), ("category", .str t.category),
        ("energy", .num t.energy), ("priority", encodeOptInt t.priority),
        ("createdAt", .str t.createdAt)]

/-- The JSON object for one history entry: the task fields followed by
`completedAt` (script.js lines 99-102). -/
def encodeEntry (e : HistoryEntry) : Json :=
  .obj [("id", .str e.id), ("name", .str e.name), ("category", .str e.category),
        ("energy", .num e.energy), ("priority", encodeOptInt e.priority),
        ("createdAt", .str e.createdAt), ("completedAt", .str e.completedAt)]

/-- The JSON object for the whole `appState` (script.js lines 5-10). -/
def encodeState (st : AppState) : Json :=
  .obj [("tasks", .arr (st.tasks.map encodeTask)),
        ("history", .arr (st.history.map encodeEntry)),
        ("currentEnergy", encodeOptInt st.currentEnergy),
        ("dailyRating", encodeOptInt st.dailyRating)]

/-! ## Typing the loaded value

`script.js` assigns `appState = JSON.parse(stored)` without any validation.
To type the result, the decoders below recognize exactly the JSON shapes
`encodeState` produces; a parsed value of any other shape leaves the script
with an ill-shaped `appState`, which the model reports as such. -/

def decodeOptInt : Json → Option (Option Int)
  | .null => some none
  | .num n => some (some n)
  | _ => none

def decodeTask : Json → Option Task
  | .obj [("id", .str i), ("name", .str n), ("category", .str c),
          ("energy", .num e), ("priority", pj), ("createdAt", .str ca)] =>
    match decodeOptInt pj with
    | some p => some { id := i, name := n, category := c, energy := e,
                       priority := p, createdAt := ca }
    | none => none
  | _ => none

def decodeEntry : Json → Option HistoryEntry
  | .obj [("id", .str i), ("name", .str n), ("category", .str c),
          ("energy", .num e), ("priority", pj), ("createdAt", .str ca),
          ("completedAt", .str done)] =>
    match decodeOptInt pj with
    | some p => some { id := i, name := n, category := c, energy := e,
                       priority := p, createdAt := ca, completedAt := done }
    | none => none
  | _ => none

def decodeTasks : List Json → Option (List Task)
  | [] => some []
  | j :: js =>
    match decodeTask j, decodeTasks js with
    | some t, some ts => some (t :: ts)
    | _, _ => none

def decodeEntries : List Json → Option (List HistoryEntry)
  | [] => some []
  | j :: js =>
    match decodeEntry j, decodeEntries js with
    | some e, some es => some (e :: es)
    | _, _ => none

def decodeState : Json → Option AppState
  | .obj [("tasks", .arr tjs), ("history", .arr hjs),
          ("currentEnergy", cej), ("dailyRating", drj)] =>
    match decodeTasks tjs, decodeEntries hjs, decodeOptInt cej, decodeOptInt drj with
    | some ts, some hs, some ce, some dr =>
      some { tasks := ts, history := hs, currentEnergy := ce, dailyRating := dr }
    | _, _, _, _ => none
  | _ => none

/-! ## Persistence (script.js lines 17-32) -/

/-- The possible outcomes of `loadFromStorage` (script.js lines 17-25). -/
inductive LoadResult where
  /-- `localStorage.getItem` returned `null`: `appState` is left at its
  default value and a console message is printed. -/
  | noData : LoadResult
  /-- The stored text parsed and had the `AppState` shape: `appState` is
  replaced by this value. -/
  | loaded : AppState → LoadResult
  /-- `JSON.parse` threw; the exception escapes `loadFromStorage`, so the
  caller (`initApp`) fails. -/
  | parseError : String → LoadResult
  /-- The stored text parsed but was not `AppState`-shaped; the script
  assigns the raw parsed value to `appState`. -/
  | illShaped : Json → LoadResult

/-- `loadFromStorage` (script.js lines 17-25): read the single record under
the `neuroPlannerData` key and, when present, assign `JSON.parse` of it to
`appState`. There is no try/catch around `JSON.parse`. -/
def loadFromStorage (stored : Option StoredText) : LoadResult :=
  match stored with
  | none => .noData
  | some text =>
    match jsonParse text with
    | .error e => .parseError e
    | .ok j =>
      match decodeState j with
      | some st => .loaded st
      | none => .illShaped j

/-- `saveToStorage` (script.js lines 30-32): `localStorage.setItem` of
`JSON.stringify(appState)` under the single key. -/
def saveToStorage (w : World) : World :=
  { w with storage := { data := some (jsonStringify (encodeState w.state)),
                        writes := w.storage.writes + 1 } }

/-! ## Task lifecycle (script.js lines 43-107) -/

/-- JS falsiness of a nullable integer value: `null`/`undefined` and `0` are
the falsy cases. -/
def intOptFalsy : Option Int → Bool
  | none => true
  | some n => n == 0

/-- Model of `String.prototype.trim` at the character-list level: drop
whitespace from both ends. -/
def jsTrim (s : String) : String :=
  ⟨((s.data.dropWhile Char.isWhitespace).reverse.dropWhile Char.isWhitespace).reverse⟩

/-- `addTask` (script.js lines 43-62). The guard is the source's
`if (!name || !category || !energy)`; on success a task object is built and
pushed, and the state is persisted. `energy.getD 0` is `parseInt(energy)` —
the guard has already ensured `energy` is a present nonzero integer. -/
def addTask (name category : String) (energy priority : Option Int)
    (clock : Clock) (w : World) : Bool × World :=
  if name == "" || category == "" || intOptFalsy energy then
    (false, w)
  else
    let task : Task :=
      { id := toString clock.ms
        name := jsTrim name
        category := category
        energy := energy.getD 0
        priority := if intOptFalsy priority then none else priority
        createdAt := clock.iso }
    let w := { w with state := { w.state with tasks := w.state.tasks ++ [task] } }
    (true, saveToStorage w)

/-- The `updates` object accepted by `editTask`, per its documented keys
(name/category/energy/priority — the shape `handleEditSubmit` builds,
script.js lines 359-365). A `none` field is absent from the object; note the
`priority` key can be present with value `null`. -/
structure TaskUpdates where
  name : Option String := none
  category : Option String := none
  energy : Option Int := none
  priority : Option (Option Int) := none

/-- The object spread `{...task, ...updates}` (script.js lines 72-75)
restricted to the documented update keys: each key present in `updates`
overrides the task's field; `id` and `createdAt` are not update keys and are
carried over from the task. -/
def applyUpdates (t : Task) (u : TaskUpdates) : Task :=
  { id := t.id
    name := u.name.getD t.name
    category := u.category.getD t.category
    energy := u.energy.getD t.energy
    priority := u.priority.getD t.priority
    createdAt := t.createdAt }

/-- `editTask` (script.js lines 69-80): find the first task with the id;
if found, overwrite it with the spread of the updates and persist, returning
true; otherwise return false. -/
def editTask (id : String) (u : TaskUpdates) (w : World) : Bool × World :=
  match w.state.tasks.findIdx? (fun t => t.id == id) with
  | some taskIndex =>
    let w := { w with state := { w.state with
                 tasks := w.state.tasks.modify (fun t => applyUpdates t u) taskIndex } }
    (true, saveToStorage w)
  | none => (false, w)

/-- `deleteTask` (script.js lines 86-89): filter the id out of `tasks` and
persist unconditionally. -/
def deleteTask (id : String) (w : World) : World :=
  saveToStorage { w with state := { w.state with
    tasks := w.state.tasks.filter (fun t => t.id != id) } }

/-- `completeTask` (script.js lines 95-107): if a task with the id is found,
build the completed copy (all task fields plus `completedAt`), unshift it
onto `history`, filter the id out of `tasks`, persist. No-op otherwise. -/
def completeTask (id : String) (clock : Clock) (w : World) : World :=
  match w.state.tasks.find? (fun t => t.id == id) with
  | some task =>
    let completedTask : HistoryEntry :=
      { id := task.id, name := task.name, category := task.category,
        energy := task.energy, priority := task.priority,
        createdAt := task.createdAt, completedAt := clock.iso }
    saveToStorage { w with state := { w.state with
      history := completedTask :: w.state.history,
      tasks := w.state.tasks.filter (fun t => t.id != id) } }
  | none => w

/-- `handleEnergySelect`'s state mutation (script.js lines 299-301):
set `currentEnergy`, persist. -/
def handleEnergySelect (energy : Int) (w : World) : World :=
  saveToStorage { w with state := { w.state with currentEnergy := some energy } }

/-- `handleRating`'s state mutation (script.js lines 386-389):
set `dailyRating`, persist. -/
def handleRating (rating : Int) (w : World) : World :=
  saveToStorage { w with state := { w.state with dailyRating := some rating } }

/-! ## Ordering engine (script.js lines 121-151) -/

/-- A task decorated with its computed scores, as built by the `map` in
`orderTasks` (script.js lines 127-138). -/
structure ScoredTask where
  id : String
  name : String
  category : String
  energy : Int
  priority : Option Int
  createdAt : String
  energyDiff : Int
  priorityScore : Int
deriving Repr, DecidableEq

/-- The decoration step (script.js lines 127-138): copy the task and add
`energyDiff = Math.abs(task.energy - currentEnergy)` and
`priorityScore = task.priority || 4` (so `null` — and a hypothetical `0` —
become 4). -/
def scoreTask (currentEnergy : Int) (task : Task) : ScoredTask :=
  { id := task.id, name := task.name, category := task.category,
    energy := task.energy, priority := task.priority, createdAt := task.createdAt,
    energyDiff := |task.energy - currentEnergy|,
    priorityScore := match task.priority with
                     | some p => if p == 0 then 4 else p
                     | none => 4 }

/-- The comparator passed to `Array.prototype.sort` (script.js lines
141-148). -/
def compareTasks (a b : ScoredTask) : Int :=
  if a.energyDiff ≠ b.energyDiff then a.energyDiff - b.energyDiff
  else a.priorityScore - b.priorityScore

/-- `a` sorts no later than `b` under `compareTasks`. ES2019
`Array.prototype.sort` is a stable sort consistent with the comparator, and a
stable sort by a total preorder is unique, so the JS sort is modelled below
by stable insertion sort over this relation. -/
def sortRel (a b : ScoredTask) : Prop := compareTasks a b ≤ 0

instance : DecidableRel sortRel := fun a b =>
  inferInstanceAs (Decidable (compareTasks a b ≤ 0))

/-- `orderTasks` (script.js lines 121-151). The source reads the global
`appState.tasks`; here the task list is passed alongside `currentEnergy`.
The guard is the source's `if (!currentEnergy || appState.tasks.length === 0)`;
`currentEnergy.getD 0` is the value the guard has ensured present and
nonzero. -/
def orderTasks (currentEnergy : Option Int) (tasks : List Task) : List ScoredTask :=
  if intOptFalsy currentEnergy || tasks.length == 0 then []
  else
    let tasksWithScore := tasks.map (scoreTask (currentEnergy.getD 0))
    List.insertionSort sortRel tasksWithScore

/-! ## Derived notions used by the statements -/

/-- The sort key the spec names: the `(energyDiff, priorityScore)` pair. -/
def sortKey (s : ScoredTask) : Int × Int := (s.energyDiff, s.priorityScore)

/-- Ascending lexicographic order on the `(energyDiff, priorityScore)` pair:
energy compatibility primary, priority score the tie-break. -/
def keyLE (a b : ScoredTask) : Prop :=
  a.energyDiff < b.energyDiff ∨
    (a.energyDiff = b.energyDiff ∧ a.priorityScore ≤ b.priorityScore)

/-- The data-model constraint on `priority`: when present it lies in [1,3]. -/
def validPriority (t : Task) : Prop :=
  match t.priority with
  | none => True
  | some p => 1 ≤ p ∧ p ≤ 3

instance (t : Task) : Decidable (validPriority t) := by
  unfold validPriority
  cases t.priority <;> exact inferInstance

/-- All ids present in the state, tasks first, then history. -/
def idsOf (st : AppState) : List String :=
  st.tasks.map Task.id ++ st.history.map HistoryEntry.id

/-- The id invariant: no id occurs twice across `tasks` and `history` —
neither duplicated within one collection nor shared between the two. -/
def UniqueIds (st : AppState) : Prop := (idsOf st).Nodup

instance (st : AppState) : Decidable (UniqueIds st) :=
  inferInstanceAs (Decidable (idsOf st).Nodup)

/-- One state-mutating operation of the lifecycle layer, with the clock
values the run supplies. -/
inductive Op where
  | add (name category : String) (energy priority : Option Int) (clock : Clock)
  | edit (id : String) (u : TaskUpdates)
  | del (id : String)
  | complete (id : String) (clock : Clock)
  | setEnergy (energy : Int)
  | setRating (rating : Int)

/-- Run one operation on the world (boolean results discarded). -/
def applyOp : Op → World → World
  | .add name category energy priority clock, w =>
    (addTask name category energy priority clock w).2
  | .edit id u, w => (editTask id u w).2
  | .del id, w => deleteTask id w
  | .complete id clock, w => completeTask id clock w
  | .setEnergy e, w => handleEnergySelect e w
  | .setRating r, w => handleRating r w

/-- The freshness proviso for an operation: an `addTask` call must run at a
millisecond count whose string form differs from every id already in the
state; the other operations need nothing. -/
def freshFor : Op → AppState → Prop
  | .add _ _ _ _ clock, st => toString clock.ms ∉ idsOf st
  | _, _ => True

instance : (op : Op) → (st : AppState) → Decidable (freshFor op st)
  | .add _ _ _ _ clock, st =>
    inferInstanceAs (Decidable (toString clock.ms ∉ idsOf st))
  | .edit _ _, _ => inferInstanceAs (Decidable True)
  | .del _, _ => inferInstanceAs (Decidable True)
  | .complete _ _, _ => inferInstanceAs (Decidable True)
  | .setEnergy _, _ => inferInstanceAs (Decidable True)
  | .setRating _, _ => inferInstanceAs (Decidable True)

/-- A concrete task used to instantiate theorems with hypotheses. -/
def sampleTask : Task :=
  { id := "5", name := "laundry", category := "cleaning",
    energy := 2, priority := some 1, createdAt := "2025-01-01T00:00:00.000Z" }

/-- A world holding exactly `sampleTask`. -/
def sampleWorld : World :=
  { state := { defaultAppState with tasks := [sampleTask] },
    storage := { data := none, writes := 0 } }

/-- Two same-energy tasks, one with priority 3 and one with none, used to
instantiate the ordering theorems (the spec's tie-break scenario). -/
def sampleTasks : List Task :=
  [{ id := "1", name := "a", category := "other", energy := 2,
     priority := none, createdAt := "t1" },
   { id := "2", name := "b", category := "other", energy := 2,
     priority := some 3, createdAt := "t2" }]

/-! ## Round-trip helper lemmas -/

theorem decodeOptInt_encodeOptInt (p : Option Int) :
    decodeOptInt (encodeOptInt p) = some p := by
  cases p <;> rfl

theorem decodeTask_encodeTask (t : Task) : decodeTask (encodeTask t) = some t := by
  rcases t with ⟨i, n, c, e, p, ca⟩
  cases p <;> rfl

theorem decodeEntry_encodeEntry (e : HistoryEntry) :
    decodeEntry (encodeEntry e) = some e := by
  rcases e with ⟨i, n, c, en, p, ca, da⟩
  cases p <;> rfl

theorem decodeTasks_encode (ts : List Task) :
    decodeTasks (ts.map encodeTask) = some ts := by
  induction ts with
  | nil => rfl
  | cons t ts ih => simp [decodeTasks, decodeTask_encodeTask, ih]

theorem decodeEntries_encode (hs : List HistoryEntry) :
    decodeEntries (hs.map encodeEntry) = some hs := by
  induction hs with
  | nil => rfl
  | cons h hs ih => simp [decodeEntries, decodeEntry_encodeEntry, ih]

theorem decodeState_encodeState (st : AppState) :
    decodeState (encodeState st) = some st := by
  rcases st with ⟨ts, hs, ce, dr⟩
  simp [encodeState, decodeState, decodeTasks_encode, decodeEntries_encode,
        decodeOptInt_encodeOptInt]

/-! ## Claim theorems -/

/-- C7: `orderTasks` returns the empty sequence whenever `currentEnergy` is
unset or the task list is empty, for every task list and every energy. -/
theorem orderTasks_empty_guard :
    (∀ tasks : List Task, orderTasks none tasks = []) ∧
    (∀ currentEnergy : Option Int, orderTasks currentEnergy [] = []) := by
  constructor
  · intro tasks; rfl
  · intro ce; simp [orderTasks]

/-- C10: when `editTask` returns false (no task with the id), the entire
world — `tasks`, `history`, `currentEnergy`, `dailyRating` and the storage,
including its write count — is unchanged: the failure path performs no
mutation and no persistence write. -/
theorem editTask_failure_frame (id : String) (u : TaskUpdates) (w : World)
    (h : (editTask id u w).1 = false) : (editTask id u w).2 = w := by
  unfold editTask at h ⊢
  cases hf : w.state.tasks.findIdx? (fun t => t.id == id) with
  | none => simp [hf]
  | some i => rw [hf] at h; simp at h

/-- Witness for C10 at a concrete input: editing an id absent from the empty
world returns false and leaves the world untouched. -/
theorem editTask_failure_frame_witness :
    (editTask "missing" {} initialWorld).2 = initialWorld :=
  editTask_failure_frame "missing" {} initialWorld rfl

/-- C3 counterexample: on a stored record that is not valid JSON,
`loadFromStorage` does not return the default empty state — the `JSON.parse`
exception escapes and fails the caller (there is no try/catch). -/
theorem load_corrupt_counterexample :
    loadFromStorage (some StoredText.notJson) =
      LoadResult.parseError "SyntaxError: unexpected token in JSON" ∧
    loadFromStorage (some StoredText.notJson) ≠ LoadResult.noData ∧
    loadFromStorage (some StoredText.notJson) ≠ LoadResult.loaded defaultAppState := by
  refine ⟨rfl, ?_, ?_⟩ <;> simp [loadFromStorage, jsonParse]

/-- C3 amended: when the stored record is absent, load leaves the default
empty state in place; when the record holds the serialized form of a state,
load returns exactly that state; but when the record is not valid JSON the
parse error propagates to the caller instead of degrading to the default. -/
theorem loadFromStorage_amended :
    loadFromStorage none = LoadResult.noData ∧
    loadFromStorage (some StoredText.notJson) =
      LoadResult.parseError "SyntaxError: unexpected token in JSON" ∧
    ∀ st : AppState,
      loadFromStorage (some (jsonStringify (encodeState st))) = LoadResult.loaded st := by
  refine ⟨rfl, rfl, fun st => ?_⟩
  simp [loadFromStorage, jsonStringify, jsonParse, decodeState_encodeState]

/-- C2 counterexample: a category outside the fixed set
{cooking, cleaning, gym, paperwork, other} is accepted — `addTask` returns
true where the claim requires false (only JS-falsiness of the arguments is
checked, not membership or range). -/
theorem addTask_invalid_category_counterexample :
    "gardening" ∉ fixedCategories ∧
    (addTask "water plants" "gardening" (some 3) none
        ⟨100, "2025-01-02T00:00:00.000Z"⟩ initialWorld).1 = true := by
  exact ⟨by decide, rfl⟩

/-- C2 amended: `addTask` returns false — with the whole world unchanged —
exactly when `name` is the empty string, or `category` is the empty string,
or `energy` is absent or `0` (JS falsiness of the three required fields);
neither membership of `category` in the fixed set nor the [1,5] range of
`energy` is checked, and the name is trimmed only after validation. In
particular `addTask("", "cooking", 3, null)` fails and changes nothing. -/
theorem addTask_validation (name category : String) (energy priority : Option Int)
    (clock : Clock) (w : World) :
    ((addTask name category energy priority clock w).1 = false ↔
      name = "" ∨ category = "" ∨ energy = none ∨ energy = some 0) ∧
    ((addTask name category energy priority clock w).1 = false →
      (addTask name category energy priority clock w).2 = w) := by
  rcases energy with _ | e
  · simp [addTask, intOptFalsy]
  · by_cases he : e = 0
    · subst he; simp [addTask, intOptFalsy]
    · by_cases hn : name = "" <;> by_cases hc : category = "" <;>
        simp [addTask, intOptFalsy, hn, hc, he]

/-- Witness for C2 at the claim's concrete input:
`addTask("", "cooking", 3, null)` returns false and the world is unchanged. -/
theorem addTask_validation_witness :
    (addTask "" "cooking" (some 3) none ⟨1, "t"⟩ initialWorld).1 = false ∧
    (addTask "" "cooking" (some 3) none ⟨1, "t"⟩ initialWorld).2 = initialWorld := by
  have h := addTask_validation "" "cooking" (some 3) none ⟨1, "t"⟩ initialWorld
  exact ⟨h.1.mpr (Or.inl rfl), h.2 (h.1.mpr (Or.inl rfl))⟩

/-- C6: the persistence round-trip is the identity — saving any state and
then loading yields exactly the saved state. -/
theorem save_load_roundtrip (w : World) :
    loadFromStorage ((saveToStorage w).storage.data) = LoadResult.loaded w.state := by
  simp [saveToStorage, loadFromStorage, jsonStringify, jsonParse,
        decodeState_encodeState]

/-- C5: if a task with the id exists in `tasks`, `completeTask` removes it
from `tasks` and prepends to `history` an entry copying all of its fields
plus `completedAt` set to the current time, so afterwards the id is absent
from `tasks` and present exactly once in `history`; if no task has the id,
`completeTask` leaves the world unchanged and raises no error. -/
theorem completeTask_spec (id : String) (clock : Clock) (w : World) :
    (∀ task, w.state.tasks.find? (fun t => t.id == id) = some task →
      id ∉ w.state.history.map HistoryEntry.id →
      id ∉ (completeTask id clock w).state.tasks.map Task.id ∧
      ((completeTask id clock w).state.history.map HistoryEntry.id).count id = 1 ∧
      (completeTask id clock w).state.history =
        { id := task.id, name := task.name, category := task.category,
          energy := task.energy, priority := task.priority,
          createdAt := task.createdAt, completedAt := clock.iso } :: w.state.history) ∧
    (w.state.tasks.find? (fun t => t.id == id) = none → completeTask id clock w = w) := by
  constructor
  · intro task hfind hnot
    have hid : task.id = id := by
      have h := List.find?_some hfind
      simpa using h
    simp only [completeTask, hfind, saveToStorage]
    refine ⟨?_, ?_, trivial⟩
    · simp [List.mem_map, List.mem_filter]
    · simp [List.count_cons, hid, List.count_eq_zero.mpr hnot]
  · intro hfind
    simp [completeTask, hfind]

/-- Witness for C5 at a concrete input: completing the only task of
`sampleWorld` leaves its id absent from `tasks` and exactly once in
`history`. -/
theorem completeTask_spec_witness :
    "5" ∉ (completeTask "5" ⟨9, "T9"⟩ sampleWorld).state.tasks.map Task.id ∧
    ((completeTask "5" ⟨9, "T9"⟩ sampleWorld).state.history.map
        HistoryEntry.id).count "5" = 1 := by
  have h := (completeTask_spec "5" ⟨9, "T9"⟩ sampleWorld).1 sampleTask rfl (by decide)
  exact ⟨h.1, h.2.1⟩

/-- C8: `editTask` returns false when no task with the id exists; when one
does, it returns true, overwrites exactly the first matching task with the
updates applied over the existing record, preserves that record's `id` and
`createdAt`, and leaves every other position unchanged. -/
theorem editTask_spec (id : String) (u : TaskUpdates) (w : World) :
    ((∀ t ∈ w.state.tasks, t.id ≠ id) → (editTask id u w).1 = false) ∧
    (∀ i, w.state.tasks.findIdx? (fun t => t.id == id) = some i →
      (editTask id u w).1 = true ∧
      (∀ t, w.state.tasks[i]? = some t →
        (editTask id u w).2.state.tasks[i]? = some (applyUpdates t u) ∧
        (applyUpdates t u).id = t.id ∧
        (applyUpdates t u).createdAt = t.createdAt) ∧
      ∀ j, j ≠ i → (editTask id u w).2.state.tasks[j]? = w.state.tasks[j]?) := by
  constructor
  · intro hall
    have hnone : w.state.tasks.findIdx? (fun t => t.id == id) = none := by
      rw [List.findIdx?_eq_none_iff]
      intro t ht
      simpa using hall t ht
    simp [editTask, hnone]
  · intro i hfind
    simp only [editTask, hfind, saveToStorage]
    refine ⟨trivial, ?_, ?_⟩
    · intro t ht
      refine ⟨?_, rfl, rfl⟩
      simp [ht]
    · intro j hj
      simp [List.getElem?_modify_ne _ w.state.tasks (Ne.symm hj)]

/-- Witness for C8 at a concrete input: renaming the only task of
`sampleWorld` succeeds. -/
theorem editTask_spec_witness :
    (editTask "5" { name := some "dishes" } sampleWorld).1 = true :=
  ((editTask_spec "5" { name := some "dishes" } sampleWorld).2 0 rfl).1

/-! ## Ordering engine lemmas -/

theorem scoreTask_priorityScore (ce : Int) (t : Task) (hval : validPriority t) :
    (scoreTask ce t).priorityScore = t.priority.getD 4 := by
  cases hp : t.priority with
  | none => simp [scoreTask, hp]
  | some p =>
    simp only [validPriority, hp] at hval
    have hp0 : (p == 0) = false := by simp; omega
    simp [scoreTask, hp, hp0]

/-- Past the guard, `orderTasks` is the stable sort of the decorated list. -/
theorem orderTasks_some (ce : Int) (tasks : List Task) (hce : ce ≠ 0) :
    orderTasks (some ce) tasks =
      List.insertionSort sortRel (tasks.map (scoreTask ce)) := by
  cases tasks with
  | nil => simp [orderTasks]
  | cons t ts => simp [orderTasks, intOptFalsy, hce]

/-- C9: `orderTasks` is pure and total over valid input: its output is a
permutation of decorated copies of exactly the input tasks — each copy
keeping every field of its task unchanged and carrying the computed
`energyDiff` and `priorityScore` — and the inputs themselves appear
unchanged inside those copies, so nothing is mutated. -/
theorem orderTasks_pure (ce : Int) (tasks : List Task)
    (h1 : 1 ≤ ce) (h5 : ce ≤ 5) (hval : ∀ t ∈ tasks, validPriority t) :
    (orderTasks (some ce) tasks).Perm (tasks.map (scoreTask ce)) ∧
    ∀ t ∈ tasks,
      (scoreTask ce t).id = t.id ∧ (scoreTask ce t).name = t.name ∧
      (scoreTask ce t).category = t.category ∧
      (scoreTask ce t).energy = t.energy ∧
      (scoreTask ce t).priority = t.priority ∧
      (scoreTask ce t).createdAt = t.createdAt ∧
      (scoreTask ce t).energyDiff = |t.energy - ce| ∧
      (scoreTask ce t).priorityScore = t.priority.getD 4 := by
  constructor
  · rw [orderTasks_some ce tasks (by omega)]
    exact List.perm_insertionSort _ _
  · intro t ht
    exact ⟨rfl, rfl, rfl, rfl, rfl, rfl, rfl,
           scoreTask_priorityScore ce t (hval t ht)⟩

/-- Witness for C9 at a concrete input: the output on `sampleTasks` at
energy 2 is a permutation of the decorated inputs. -/
theorem orderTasks_pure_witness :
    (orderTasks (some 2) sampleTasks).Perm (sampleTasks.map (scoreTask 2)) :=
  (orderTasks_pure 2 sampleTasks (by decide) (by decide) (by decide)).1

/-- The source's comparator agrees with ascending lexicographic order on the
`(energyDiff, priorityScore)` pair. -/
theorem sortRel_iff_keyLE (a b : ScoredTask) : sortRel a b ↔ keyLE a b := by
  unfold sortRel compareTasks keyLE
  by_cases h : a.energyDiff = b.energyDiff
  · simp [h]
  · simp [h]
    omega

instance : IsTotal ScoredTask sortRel :=
  ⟨fun a b => by simp only [sortRel_iff_keyLE]; unfold keyLE; omega⟩

instance : IsTrans ScoredTask sortRel :=
  ⟨fun a b c hab hbc => by
    rw [sortRel_iff_keyLE] at hab hbc ⊢
    unfold keyLE at hab hbc ⊢
    omega⟩

theorem keyLE_of_sortKey_eq {a b : ScoredTask} (h : sortKey a = sortKey b) :
    keyLE a b := by
  unfold sortKey at h
  unfold keyLE
  simp only [Prod.mk.injEq] at h
  omega

/-- Inserting `a` commutes with filtering by a fixed sort key: everything the
insertion walks past has a strictly smaller key than `a`, so within each key
class the new element lands behind the old ones. -/
theorem filter_orderedInsert_key (k : Int × Int) (a : ScoredTask)
    (l : List ScoredTask) :
    (l.orderedInsert sortRel a).filter (fun s => sortKey s == k) =
      if sortKey a = k then a :: l.filter (fun s => sortKey s == k)
      else l.filter (fun s => sortKey s == k) := by
  induction l with
  | nil => by_cases hk : sortKey a = k <;> simp [List.orderedInsert, hk]
  | cons b l ih =>
    by_cases hab : sortRel a b
    · rw [List.orderedInsert_of_le _ _ hab]
      by_cases hk : sortKey a = k <;> simp [List.filter_cons, hk]
    · have e : (b :: l).orderedInsert sortRel a = b :: l.orderedInsert sortRel a := by
        simp [List.orderedInsert, hab]
      rw [e]
      by_cases hk : sortKey a = k
      · have hbk : sortKey b ≠ k := fun hb =>
          hab ((sortRel_iff_keyLE a b).mpr (keyLE_of_sortKey_eq (hk.trans hb.symm)))
        simp [List.filter_cons, ih, hk, hbk]
      · simp [List.filter_cons, ih, hk]

/-- Stability of the sort: filtering the sorted output by any fixed key
gives exactly the same-key elements of the input in their input order. -/
theorem filter_insertionSort_key (k : Int × Int) (l : List ScoredTask) :
    (List.insertionSort sortRel l).filter (fun s => sortKey s == k) =
      l.filter (fun s => sortKey s == k) := by
  induction l with
  | nil => rfl
  | cons a l ih =>
    show ((List.insertionSort sortRel l).orderedInsert sortRel a).filter _ = _
    rw [filter_orderedInsert_key, ih]
    by_cases hk : sortKey a = k <;> simp [List.filter_cons, hk]

/-- C1: for every current energy in [1,5] and every list of valid tasks,
`orderTasks` returns exactly the decorated input tasks sorted ascending by
the `(energyDiff, priorityScore)` pair — `energyDiff` the primary key,
`priorityScore` (the priority, or 4 when absent) the tie-break — and the
sort is stable: elements with equal pairs keep their relative input order. -/
theorem orderTasks_sorted_stable (ce : Int) (tasks : List Task)
    (h1 : 1 ≤ ce) (h5 : ce ≤ 5) (hval : ∀ t ∈ tasks, validPriority t) :
    (orderTasks (some ce) tasks).Perm (tasks.map (scoreTask ce)) ∧
    List.Sorted keyLE (orderTasks (some ce) tasks) ∧
    (∀ t ∈ tasks, (scoreTask ce t).energyDiff = |t.energy - ce| ∧
                  (scoreTask ce t).priorityScore = t.priority.getD 4) ∧
    ∀ k : Int × Int,
      (orderTasks (some ce) tasks).filter (fun s => sortKey s == k) =
        (tasks.map (scoreTask ce)).filter (fun s => sortKey s == k) := by
  rw [orderTasks_some ce tasks (by omega)]
  refine ⟨List.perm_insertionSort _ _, ?_, ?_, ?_⟩
  · exact (List.sorted_insertionSort sortRel _).imp
      (fun h => (sortRel_iff_keyLE _ _).mp h)
  · intro t ht
    exact ⟨rfl, scoreTask_priorityScore ce t (hval t ht)⟩
  · intro k
    exact filter_insertionSort_key k _

/-- Witness for C1 at a concrete input: the output on `sampleTasks` at
energy 2 is sorted by the key pair. -/
theorem orderTasks_sorted_stable_witness :
    List.Sorted keyLE (orderTasks (some 2) sampleTasks) :=
  (orderTasks_sorted_stable 2 sampleTasks (by decide) (by decide) (by decide)).2.1

/-! ## Id uniqueness -/

/-- C4 counterexample: ids are derived from `Date.now()`, so two `addTask`
calls within the same millisecond assign the same id — the state reached by
two same-clock adds from the initial world holds a duplicate id in `tasks`. -/
theorem duplicate_id_counterexample :
    ¬ UniqueIds ((addTask "b" "cooking" (some 3) none ⟨5, "T5"⟩
        ((addTask "a" "cooking" (some 3) none ⟨5, "T5"⟩ initialWorld).2)).2.state) := by
  decide

theorem nodup_append_middle {A H : List String} {n : String}
    (h : (A ++ H).Nodup) (hn : n ∉ A ++ H) : (A ++ [n] ++ H).Nodup := by
  have hperm : List.Perm (A ++ [n] ++ H) (n :: (A ++ H)) := by
    rw [List.append_assoc]
    exact List.perm_middle
  exact hperm.nodup_iff.mpr (List.nodup_cons.mpr ⟨hn, h⟩)

theorem map_id_modify (u : TaskUpdates) (i : Nat) (l : List Task) :
    (l.modify (fun t => applyUpdates t u) i).map Task.id = l.map Task.id := by
  induction l generalizing i with
  | nil => simp
  | cons a l ih =>
    cases i with
    | zero => simp [applyUpdates]
    | succ n => simp [ih]

theorem addTask_success_state (name category : String)
    (energy priority : Option Int) (clock : Clock) (w : World)
    (hg : (name == "" || category == "" || intOptFalsy energy) = false) :
    (addTask name category energy priority clock w).2.state =
      { w.state with tasks := w.state.tasks ++
          [{ id := toString clock.ms, name := jsTrim name, category := category,
             energy := energy.getD 0,
             priority := if intOptFalsy priority then none else priority,
             createdAt := clock.iso }] } := by
  simp [addTask, hg, saveToStorage]

/-- C4 amended: provided each `addTask` call runs at a millisecond count
whose string form differs from every id already in the state (the freshness
the id scheme assumes; violated only by two creations in the same
millisecond), every lifecycle operation preserves the invariant that each id
occurs at most once across `tasks` and `history` — never in both, never
twice in either — and loading the saved serialization of the current state
yields a state with the same invariant. -/
theorem uniqueIds_preserved (op : Op) (w : World)
    (hinv : UniqueIds w.state) (hfresh : freshFor op w.state) :
    UniqueIds (applyOp op w).state ∧
    ∀ st : AppState,
      loadFromStorage (some (jsonStringify (encodeState w.state))) =
        LoadResult.loaded st → UniqueIds st := by
  constructor
  · cases op with
    | add name category energy priority clock =>
      cases hg : (name == "" || category == "" || intOptFalsy energy) with
      | true => simpa [applyOp, addTask, hg] using hinv
      | false =>
        show UniqueIds (addTask name category energy priority clock w).2.state
        rw [addTask_success_state name category energy priority clock w hg]
        unfold UniqueIds idsOf at hinv ⊢
        simp only [List.map_append, List.map_cons, List.map_nil]
        exact nodup_append_middle hinv hfresh
    | edit id u =>
      cases hf : w.state.tasks.findIdx? (fun t => t.id == id) with
      | none => simpa [applyOp, editTask, hf] using hinv
      | some i =>
        unfold UniqueIds idsOf at hinv ⊢
        simp only [applyOp, editTask, hf, saveToStorage]
        rw [map_id_modify]
        exact hinv
    | del id =>
      unfold UniqueIds idsOf at hinv ⊢
      simp only [applyOp, deleteTask, saveToStorage]
      exact List.Nodup.sublist
        (List.Sublist.append ((List.filter_sublist _).map _) (List.Sublist.refl _))
        hinv
    | complete id clock =>
      cases hf : w.state.tasks.find? (fun t => t.id == id) with
      | none => simpa [applyOp, completeTask, hf] using hinv
      | some task =>
        have hid : task.id = id := by simpa using List.find?_some hf
        have hmem : task ∈ w.state.tasks := List.mem_of_find?_eq_some hf
        unfold UniqueIds idsOf at hinv ⊢
        simp only [applyOp, completeTask, hf, saveToStorage, List.map_cons]
        rw [List.nodup_append] at hinv ⊢
        obtain ⟨hA, hH, hdisj⟩ := hinv
        refine ⟨?_, ?_, ?_⟩
        · exact List.Nodup.sublist ((List.filter_sublist _).map _) hA
        · rw [List.nodup_cons]
          exact ⟨fun hin => hdisj (List.mem_map_of_mem _ hmem) hin, hH⟩
        · intro x hx hx2
          obtain ⟨t', ht', rfl⟩ := List.mem_map.mp hx
          obtain ⟨ht'mem, ht'ne⟩ := List.mem_filter.mp ht'
          rcases List.mem_cons.mp hx2 with h1 | h2
          · exact absurd (h1.trans hid) (by simpa using ht'ne)
          · exact hdisj (List.mem_map_of_mem _ ht'mem) h2
    | setEnergy e => exact hinv
    | setRating r => exact hinv
  · intro st hload
    simp [loadFromStorage, jsonStringify, jsonParse, decodeState_encodeState]
      at hload
    exact hload ▸ hinv

/-- Witness for C4 at a concrete input: adding a task with a fresh timestamp
to the empty world preserves the id invariant. -/
theorem uniqueIds_preserved_witness :
    UniqueIds (applyOp (Op.add "a" "cooking" (some 3) none ⟨7, "T7"⟩)
        initialWorld).state :=
  (uniqueIds_preserved (Op.add "a" "cooking" (some 3) none ⟨7, "T7"⟩)
    initialWorld (by decide) (by decide)).1

end NeuroPlanner
